import Mathlib

/-!
Verification development for the `ip_based` ABAC policy core of the
pol-tree repository.  The Rust sources in `src/ip_based/` (entity.rs,
rule.rs, rule_requirements.rs, encoder.rs, classifier.rs) and the
policy walk of `src/main.rs` are embedded shallowly: `HashMap`s become
association lists, `u32` becomes `Nat` (with explicit `< 2^32` facts
where they matter), `i64` becomes `Int`, and `Result<T, String>`
becomes `Except String T`.
-/

deriving instance DecidableEq for Except

/-- Models Rust `str::starts_with` (character-wise, which agrees with the
byte-wise test on the ASCII patterns used by the source). -/
def strStartsWith (s pat : String) : Bool := pat.data.isPrefixOf s.data

/-- First-match lookup in an association list; models `HashMap::get` for the
maps the source builds (each key inserted at most once). -/
def assocGet {α β : Type} [BEq α] (l : List (α × β)) (k : α) : Option β :=
  (l.find? (fun p => p.1 == k)).map (fun p => p.2)

/- ===== entity.rs ===== -/

/-- Embeds `AttributeValue` from entity.rs. -/
inductive AttributeValue where
  | String : String → AttributeValue
  | Number : Int → AttributeValue
  | Set : List String → AttributeValue
  | Boolean : Bool → AttributeValue
deriving DecidableEq

/-- Embeds `SourceEntityAttributeKey` from entity.rs. -/
inductive SourceEntityAttributeKey where
  | Role | Dept | TrustScore | Groups | SessionCount
deriving DecidableEq

/-- Embeds `DestinationEntityAttributeKey` from entity.rs. -/
inductive DestinationEntityAttributeKey where
  | Type | OwnerDept | Sensitivity | AllowedVLANs
deriving DecidableEq

/-- Embeds `SourceEntity` from entity.rs; the attribute `HashMap` is an
association list. -/
structure SourceEntity where
  ip : String
  attributes : List (SourceEntityAttributeKey × AttributeValue)
  desc : Option String

/-- Embeds `DestinationEntity` from entity.rs. -/
structure DestinationEntity where
  ip : String
  attributes : List (DestinationEntityAttributeKey × AttributeValue)
  desc : Option String

/- ===== rule.rs: AST ===== -/

/-- Embeds `Effect` from rule.rs. -/
inductive Effect where
  | Allow | Deny
deriving DecidableEq

/-- Embeds `Expression` from rule.rs. -/
inductive Expression where
  | LiteralString : String → Expression
  | LiteralNumber : Int → Expression
  | AttributeRef : String → Expression
  | EnvRef : String → Expression
  | Add : List Expression → Expression
  | Multiply : List Expression → Expression

/-- Embeds `Condition` from rule.rs. -/
inductive Condition where
  | And : List Condition → Condition
  | Or : List Condition → Condition
  | Eq : Expression → Expression → Condition
  | Gte : Expression → Expression → Condition
  | Gt : Expression → Expression → Condition
  | Lt : Expression → Expression → Condition
  | In : Expression → Expression → Condition
  | InSet : Expression → Expression → Condition

/-- Embeds `Rule` from rule.rs. -/
structure Rule where
  id : String
  description : String
  effect : Effect
  condition : Condition

/-- Embeds `Policy` from rule.rs. -/
structure Policy where
  policy_name : String
  description : String
  default_effect : Effect
  rules : List Rule

/- ===== rule.rs: Expression evaluation ===== -/

/-- Embeds `Expression::get_source_attribute` from rule.rs. -/
def Expression.get_source_attribute (source : SourceEntity) (attr_name : String) :
    Except String AttributeValue :=
  match attr_name with
  | "Src.Role" =>
      match assocGet source.attributes .Role with
      | some v => .ok v
      | none => .error ("Attribute not found: " ++ attr_name)
  | "Src.Dept" =>
      match assocGet source.attributes .Dept with
      | some v => .ok v
      | none => .error ("Attribute not found: " ++ attr_name)
  | "Src.TrustScore" =>
      match assocGet source.attributes .TrustScore with
      | some v => .ok v
      | none => .error ("Attribute not found: " ++ attr_name)
  | "Src.Groups" =>
      match assocGet source.attributes .Groups with
      | some v => .ok v
      | none => .error ("Attribute not found: " ++ attr_name)
  | "Src.SessionCount" =>
      match assocGet source.attributes .SessionCount with
      | some v => .ok v
      | none => .error ("Attribute not found: " ++ attr_name)
  | _ => .error ("Unknown source attribute: " ++ attr_name)

/-- Embeds `Expression::get_destination_attribute` from rule.rs. -/
def Expression.get_destination_attribute (destination : DestinationEntity)
    (attr_name : String) : Except String AttributeValue :=
  match attr_name with
  | "Dst.Type" =>
      match assocGet destination.attributes .Type with
      | some v => .ok v
      | none => .error ("Attribute not found: " ++ attr_name)
  | "Dst.OwnerDept" =>
      match assocGet destination.attributes .OwnerDept with
      | some v => .ok v
      | none => .error ("Attribute not found: " ++ attr_name)
  | "Dst.Sensitivity" =>
      match assocGet destination.attributes .Sensitivity with
      | some v => .ok v
      | none => .error ("Attribute not found: " ++ attr_name)
  | "Dst.AllowedVLANs" =>
      match assocGet destination.attributes .AllowedVLANs with
      | some v => .ok v
      | none => .error ("Attribute not found: " ++ attr_name)
  | _ => .error ("Unknown destination attribute: " ++ attr_name)

mutual

/-- Embeds `Expression::evaluate` from rule.rs. -/
def Expression.evaluate (source : SourceEntity) (destination : DestinationEntity)
    (env : List (String × AttributeValue)) : Expression → Except String AttributeValue
  | .LiteralString s => .ok (.String s)
  | .LiteralNumber n => .ok (.Number n)
  | .AttributeRef attr_name =>
      if strStartsWith attr_name "Src." then
        Expression.get_source_attribute source attr_name
      else if strStartsWith attr_name "Dst." then
        Expression.get_destination_attribute destination attr_name
      else
        .error ("Unknown attribute reference: " ++ attr_name)
  | .EnvRef env_name =>
      match assocGet env env_name with
      | some v => .ok v
      | none => .error ("Environment variable not found: " ++ env_name)
  | .Add operands => do
      let values ← Expression.evalNumberOperands source destination env
        "ADD operands must be numbers" operands
      .ok (.Number (values.foldl (fun a b => a + b) 0))
  | .Multiply operands => do
      let values ← Expression.evalNumberOperands source destination env
        "MULTIPLY operands must be numbers" operands
      .ok (.Number (values.foldl (fun a b => a * b) 1))

/-- The `operands.iter().map(...).collect::<Result<Vec<i64>, _>>()` loop shared
by the `Add` and `Multiply` arms of `Expression::evaluate`: evaluates operands
left to right, stopping at the first error, and demands every value be a
`Number`. -/
def Expression.evalNumberOperands (source : SourceEntity)
    (destination : DestinationEntity) (env : List (String × AttributeValue))
    (msg : String) : List Expression → Except String (List Int)
  | [] => .ok []
  | e :: es => do
      let val ← Expression.evaluate source destination env e
      match val with
      | .Number n => do
          let rest ← Expression.evalNumberOperands source destination env msg es
          .ok (n :: rest)
      | _ => .error msg

end

mutual

/-- Embeds `Expression::references_dst` from rule.rs. -/
def Expression.references_dst : Expression → Bool
  | .AttributeRef name => strStartsWith name "Dst."
  | .Add operands => Expression.anyReferencesDst operands
  | .Multiply operands => Expression.anyReferencesDst operands
  | _ => false

/-- The `operands.iter().any(|e| e.references_dst())` loop. -/
def Expression.anyReferencesDst : List Expression → Bool
  | [] => false
  | e :: es => Expression.references_dst e || Expression.anyReferencesDst es

end

mutual

/-- Embeds `Expression::references_src_or_env` from rule.rs.  Note the source tests
`AttributeRef` names for the `"Src."`/`"Env."` prefixes; an `EnvRef` node is
not matched and yields `false`. -/
def Expression.references_src_or_env : Expression → Bool
  | .AttributeRef name => strStartsWith name "Src." || strStartsWith name "Env."
  | .Add operands => Expression.anyReferencesSrcOrEnv operands
  | .Multiply operands => Expression.anyReferencesSrcOrEnv operands
  | _ => false

/-- The `operands.iter().any(|e| e.references_src_or_env())` loop. -/
def Expression.anyReferencesSrcOrEnv : List Expression → Bool
  | [] => false
  | e :: es => Expression.references_src_or_env e || Expression.anyReferencesSrcOrEnv es

end

/- ===== rule.rs: Condition evaluation ===== -/

/-- Embeds `Condition::compare_values` from rule.rs. -/
def Condition.compare_values (lhs rhs : AttributeValue) (cmp : Int → Int → Bool) :
    Except String Bool :=
  match lhs, rhs with
  | .Number a, .Number b => .ok (cmp a b)
  | _, _ => .error "Comparison requires numbers"

mutual

/-- Embeds `Condition::evaluate` from rule.rs. -/
def Condition.evaluate (source : SourceEntity) (destination : DestinationEntity)
    (env : List (String × AttributeValue)) : Condition → Except String Bool
  | .And operands => Condition.evalAndOperands source destination env operands
  | .Or operands => Condition.evalOrOperands source destination env operands
  | .Eq lhs rhs => do
      let lhs_val ← Expression.evaluate source destination env lhs
      let rhs_val ← Expression.evaluate source destination env rhs
      .ok (decide (lhs_val = rhs_val))
  | .Gte lhs rhs => do
      let lhs_val ← Expression.evaluate source destination env lhs
      let rhs_val ← Expression.evaluate source destination env rhs
      Condition.compare_values lhs_val rhs_val (fun a b => a ≥ b)
  | .Lt lhs rhs => do
      let lhs_val ← Expression.evaluate source destination env lhs
      let rhs_val ← Expression.evaluate source destination env rhs
      Condition.compare_values lhs_val rhs_val (fun a b => a < b)
  | .Gt lhs rhs => do
      let lhs_val ← Expression.evaluate source destination env lhs
      let rhs_val ← Expression.evaluate source destination env rhs
      Condition.compare_values lhs_val rhs_val (fun a b => a > b)
  | .In target check_against => do
      let target_val ← Expression.evaluate source destination env target
      let set_val ← Expression.evaluate source destination env check_against
      match target_val, set_val with
      | .String s, .Set set => .ok (set.contains s)
      | _, _ => .error "IN operator requires String and Set"
  | .InSet value set => do
      let value_val ← Expression.evaluate source destination env value
      let set_val ← Expression.evaluate source destination env set
      match value_val, set_val with
      | .String s, .Set st => .ok (st.contains s)
      | _, _ => .error "IN operator requires String and Set"

/-- The `And` loop of `Condition::evaluate`: first error or first false
short-circuits; an empty operand list yields true. -/
def Condition.evalAndOperands (source : SourceEntity) (destination : DestinationEntity)
    (env : List (String × AttributeValue)) : List Condition → Except String Bool
  | [] => .ok true
  | c :: cs => do
      let b ← Condition.evaluate source destination env c
      if b then Condition.evalAndOperands source destination env cs else .ok false

/-- The `Or` loop of `Condition::evaluate`: first error or first true
short-circuits; an empty operand list yields false. -/
def Condition.evalOrOperands (source : SourceEntity) (destination : DestinationEntity)
    (env : List (String × AttributeValue)) : List Condition → Except String Bool
  | [] => .ok false
  | c :: cs => do
      let b ← Condition.evaluate source destination env c
      if b then .ok true else Condition.evalOrOperands source destination env cs

end

mutual

/-- Embeds `Condition::references_dst` from rule.rs. -/
def Condition.references_dst : Condition → Bool
  | .And operands => Condition.anyReferencesDst operands
  | .Or operands => Condition.anyReferencesDst operands
  | .Eq lhs rhs => lhs.references_dst || rhs.references_dst
  | .Gte lhs rhs => lhs.references_dst || rhs.references_dst
  | .Gt lhs rhs => lhs.references_dst || rhs.references_dst
  | .Lt lhs rhs => lhs.references_dst || rhs.references_dst
  | .In target check_against => target.references_dst || check_against.references_dst
  | .InSet value set => value.references_dst || set.references_dst

/-- The `operands.iter().any(|c| c.references_dst())` loop. -/
def Condition.anyReferencesDst : List Condition → Bool
  | [] => false
  | c :: cs => Condition.references_dst c || Condition.anyReferencesDst cs

end

/-- The placeholder source entity built inside `Condition::evaluate_dest_only`. -/
def dummySource : SourceEntity := ⟨"", [], none⟩

mutual

/-- Embeds `Condition::evaluate_dest_only` from rule.rs: partial evaluation against a
destination with a dummy empty source and empty environment. -/
def Condition.evaluate_dest_only (dest_entity : DestinationEntity) :
    Condition → Except String Bool
  | .And operands => Condition.destOnlyAnd dest_entity operands
  | .Or operands => Condition.destOnlyOr dest_entity false operands
  | .Eq lhs rhs =>
      if lhs.references_src_or_env || rhs.references_src_or_env then .ok true
      else do
        let l ← Expression.evaluate dummySource dest_entity [] lhs
        let r ← Expression.evaluate dummySource dest_entity [] rhs
        .ok (decide (l = r))
  | .Gte lhs rhs =>
      if lhs.references_src_or_env || rhs.references_src_or_env then .ok true
      else do
        let l ← Expression.evaluate dummySource dest_entity [] lhs
        let r ← Expression.evaluate dummySource dest_entity [] rhs
        Condition.compare_values l r (fun a b => a ≥ b)
  | .Gt lhs rhs =>
      if lhs.references_src_or_env || rhs.references_src_or_env then .ok true
      else do
        let l ← Expression.evaluate dummySource dest_entity [] lhs
        let r ← Expression.evaluate dummySource dest_entity [] rhs
        Condition.compare_values l r (fun a b => a > b)
  | .Lt lhs rhs =>
      if lhs.references_src_or_env || rhs.references_src_or_env then .ok true
      else do
        let l ← Expression.evaluate dummySource dest_entity [] lhs
        let r ← Expression.evaluate dummySource dest_entity [] rhs
        Condition.compare_values l r (fun a b => a < b)
  | .In target check_against =>
      if target.references_src_or_env || check_against.references_src_or_env then .ok true
      else do
        let t ← Expression.evaluate dummySource dest_entity [] target
        let c ← Expression.evaluate dummySource dest_entity [] check_against
        match t, c with
        | .String s, .Set set => .ok (set.contains s)
        | _, _ => .error "IN operator requires String and Set"
  | .InSet value set =>
      if value.references_src_or_env || set.references_src_or_env then .ok true
      else do
        let v ← Expression.evaluate dummySource dest_entity [] value
        let s ← Expression.evaluate dummySource dest_entity [] set
        match v, s with
        | .String st, .Set sets => .ok (sets.contains st)
        | _, _ => .error "IN operator requires String and Set"

/-- The `And` loop of `evaluate_dest_only`: operands that do not reference a
Dst attribute are skipped; a false Dst operand short-circuits to false. -/
def Condition.destOnlyAnd (dest_entity : DestinationEntity) :
    List Condition → Except String Bool
  | [] => .ok true
  | c :: cs =>
      if c.references_dst then do
        let b ← Condition.evaluate_dest_only dest_entity c
        if b then Condition.destOnlyAnd dest_entity cs else .ok false
      else Condition.destOnlyAnd dest_entity cs

/-- The `Or` loop of `evaluate_dest_only`, carrying the `has_dst` flag: a true
Dst operand short-circuits to true; after the loop the result is `!has_dst`. -/
def Condition.destOnlyOr (dest_entity : DestinationEntity) (has_dst : Bool) :
    List Condition → Except String Bool
  | [] => .ok (!has_dst)
  | c :: cs =>
      if c.references_dst then do
        let b ← Condition.evaluate_dest_only dest_entity c
        if b then .ok true else Condition.destOnlyOr dest_entity true cs
      else Condition.destOnlyOr dest_entity has_dst cs

end

/-- Embeds `Rule::matches` from rule.rs. -/
def Rule.matches (rule : Rule) (source : SourceEntity) (destination : DestinationEntity)
    (env : List (String × AttributeValue)) : Except String Bool :=
  rule.condition.evaluate source destination env

/- ===== main.rs: evaluate_policy ===== -/

/-- The rule walk of `evaluate_policy` (main.rs): first `Ok(true)` rule wins,
`Ok(false)` continues, the first error aborts with a message naming the rule. -/
def evaluatePolicyRules (source : SourceEntity) (destination : DestinationEntity)
    (env : List (String × AttributeValue)) (default_effect : Effect) :
    List Rule → Except String Effect
  | [] => .ok default_effect
  | rule :: rest =>
      match rule.matches source destination env with
      | .ok true => .ok rule.effect
      | .ok false => evaluatePolicyRules source destination env default_effect rest
      | .error e => .error ("Error evaluating rule '" ++ rule.id ++ "': " ++ e)

/-- Embeds `evaluate_policy` from main.rs. -/
def evaluate_policy (policy : Policy) (source : SourceEntity)
    (destination : DestinationEntity) (env : List (String × AttributeValue)) :
    Except String Effect :=
  evaluatePolicyRules source destination env policy.default_effect policy.rules

/- ===== classifier.rs: applicability ===== -/

/-- Embeds `is_rule_applicable_for_dest_entity` from classifier.rs. -/
def is_rule_applicable_for_dest_entity (rule : Rule) (dest_entity : DestinationEntity) :
    Bool :=
  if !rule.condition.references_dst then true
  else decide (rule.condition.evaluate_dest_only dest_entity = .ok true)

/- ===== rule_requirements.rs ===== -/

/-- Embeds `SrcRequirement` from rule_requirements.rs. -/
inductive SrcRequirement where
  | Exact (attr : String) (value : AttributeValue)
  | Containment (attr : String) (allowed_set : List String)
  | Numeric (attr : String) (required_ge : List Int) (required_lt : List Int)
deriving DecidableEq

/-- Embeds `MergedRequirements` from rule_requirements.rs. -/
structure MergedRequirements where
  role_allowed : List String
  dept_allowed : List String
  trust_score_required_ge : List Int
  trust_score_required_lt : List Int
  groups_allowed : List String
deriving DecidableEq

/-- Embeds `MergedRequirements::default`: all lists empty. -/
def MergedRequirements.empty : MergedRequirements := ⟨[], [], [], [], []⟩

/-- Embeds `get_src_attr_name` from rule_requirements.rs. -/
def get_src_attr_name : Expression → Option String
  | .AttributeRef name => if strStartsWith name "Src." then some name else none
  | _ => none

/-- Embeds `eval_expr_with_dest` from rule_requirements.rs: evaluation with the dummy
source and an empty environment. -/
def eval_expr_with_dest (expr : Expression) (dest : DestinationEntity) :
    Except String AttributeValue :=
  Expression.evaluate dummySource dest [] expr

/-- Second `if let` block of the `Gte` arm of `collect_src_requirements`
(reached when the first block did not return). -/
def collectGteSecond (dest : DestinationEntity) (lhs rhs : Expression) :
    Except String (List SrcRequirement) :=
  match get_src_attr_name rhs, lhs.references_src_or_env with
  | some attr, false => do
      let v ← eval_expr_with_dest lhs dest
      match v with
      | .Number t => .ok [.Numeric attr [t] []]
      | _ => .ok []
  | _, _ => .ok []

/-- The `Gte` arm of `collect_src_requirements`. -/
def collectGte (dest : DestinationEntity) (lhs rhs : Expression) :
    Except String (List SrcRequirement) :=
  match get_src_attr_name lhs, rhs.references_src_or_env with
  | some attr, false => do
      let v ← eval_expr_with_dest rhs dest
      match v with
      | .Number t => .ok [.Numeric attr [t] []]
      | _ => collectGteSecond dest lhs rhs
  | _, _ => collectGteSecond dest lhs rhs

/-- Second `if let` block of the `Gt` arm of `collect_src_requirements`. -/
def collectGtSecond (dest : DestinationEntity) (lhs rhs : Expression) :
    Except String (List SrcRequirement) :=
  match get_src_attr_name rhs, lhs.references_src_or_env with
  | some attr, false => do
      let v ← eval_expr_with_dest lhs dest
      match v with
      | .Number t => .ok [.Numeric attr [] [t + 1]]
      | _ => .ok []
  | _, _ => .ok []

/-- The `Gt` arm of `collect_src_requirements` (`attr > t` is normalized to
`required_ge = [t+1]`, `t > attr` to `required_lt = [t+1]`). -/
def collectGt (dest : DestinationEntity) (lhs rhs : Expression) :
    Except String (List SrcRequirement) :=
  match get_src_attr_name lhs, rhs.references_src_or_env with
  | some attr, false => do
      let v ← eval_expr_with_dest rhs dest
      match v with
      | .Number t => .ok [.Numeric attr [t + 1] []]
      | _ => collectGtSecond dest lhs rhs
  | _, _ => collectGtSecond dest lhs rhs

/-- Second `if let` block of the `Lt` arm of `collect_src_requirements`. -/
def collectLtSecond (dest : DestinationEntity) (lhs rhs : Expression) :
    Except String (List SrcRequirement) :=
  match get_src_attr_name rhs, lhs.references_src_or_env with
  | some attr, false => do
      let v ← eval_expr_with_dest lhs dest
      match v with
      | .Number t => .ok [.Numeric attr [] [t]]
      | _ => .ok []
  | _, _ => .ok []

/-- The `Lt` arm of `collect_src_requirements`. -/
def collectLt (dest : DestinationEntity) (lhs rhs : Expression) :
    Except String (List SrcRequirement) :=
  match get_src_attr_name lhs, rhs.references_src_or_env with
  | some attr, false => do
      let v ← eval_expr_with_dest rhs dest
      match v with
      | .Number t => .ok [.Numeric attr [] [t]]
      | _ => collectLtSecond dest lhs rhs
  | _, _ => collectLtSecond dest lhs rhs

/-- The `Eq` arm of `collect_src_requirements`. -/
def collectEq (dest : DestinationEntity) (lhs rhs : Expression) :
    Except String (List SrcRequirement) :=
  match get_src_attr_name lhs with
  | some attr =>
      if rhs.references_src_or_env then .ok []
      else do
        let value ← eval_expr_with_dest rhs dest
        .ok [.Exact attr value]
  | none =>
      match get_src_attr_name rhs with
      | some attr =>
          if lhs.references_src_or_env then .ok []
          else do
            let value ← eval_expr_with_dest lhs dest
            .ok [.Exact attr value]
      | none => .ok []

/-- The `In` arm of `collect_src_requirements`. -/
def collectIn (dest : DestinationEntity) (target check_against : Expression) :
    Except String (List SrcRequirement) :=
  match get_src_attr_name target with
  | some attr =>
      if check_against.references_src_or_env then .ok []
      else do
        let set_val ← eval_expr_with_dest check_against dest
        match set_val with
        | .Set allowed => .ok [.Containment attr allowed]
        | _ => .ok []
  | none => .ok []

/-- The `InSet` arm of `collect_src_requirements`. -/
def collectInSet (dest : DestinationEntity) (value set : Expression) :
    Except String (List SrcRequirement) :=
  match get_src_attr_name set with
  | some attr =>
      if value.references_src_or_env then .ok []
      else do
        let v ← eval_expr_with_dest value dest
        match v with
        | .String s => .ok [.Containment attr [s]]
        | _ => .ok []
  | none => .ok []

mutual

/-- Embeds `collect_src_requirements` from rule_requirements.rs. -/
def collect_src_requirements (dest : DestinationEntity) :
    Condition → Except String (List SrcRequirement)
  | .And operands => collectOperands dest operands
  | .Or operands => collectOperands dest operands
  | .Eq lhs rhs => collectEq dest lhs rhs
  | .Gte lhs rhs => collectGte dest lhs rhs
  | .Gt lhs rhs => collectGt dest lhs rhs
  | .Lt lhs rhs => collectLt dest lhs rhs
  | .In target check_against => collectIn dest target check_against
  | .InSet value set => collectInSet dest value set

/-- The shared `And`/`Or` loop of `collect_src_requirements`: results of all
operands are concatenated in order. -/
def collectOperands (dest : DestinationEntity) :
    List Condition → Except String (List SrcRequirement)
  | [] => .ok []
  | c :: cs => do
      let r ← collect_src_requirements dest c
      let rest ← collectOperands dest cs
      .ok (r ++ rest)

end

/-- One iteration of the `for req in requirements` loop of
`merge_requirements`. -/
def mergeStep (out : MergedRequirements) : SrcRequirement → MergedRequirements
  | .Exact attr value =>
      match value with
      | .String s =>
          if attr = "Src.Role" then
            if out.role_allowed.contains s then out
            else { out with role_allowed := out.role_allowed ++ [s] }
          else if attr = "Src.Dept" then
            if out.dept_allowed.contains s then out
            else { out with dept_allowed := out.dept_allowed ++ [s] }
          else out
      | _ => out
  | .Containment attr allowed_set =>
      if attr = "Src.Groups" then
        { out with groups_allowed :=
            (allowed_set.foldl
              (fun acc s => if acc.contains s then acc else acc ++ [s])
              out.groups_allowed) }
      else out
  | .Numeric attr required_ge required_lt =>
      if attr = "Src.TrustScore" then
        { out with
            trust_score_required_ge := out.trust_score_required_ge ++ required_ge,
            trust_score_required_lt := out.trust_score_required_lt ++ required_lt }
      else out

/-- Models `Vec::dedup` on an `i64` vector: removes consecutive duplicates. -/
def dedupAdjacent : List Int → List Int
  | [] => []
  | [a] => [a]
  | a :: b :: rest =>
      if a = b then dedupAdjacent (b :: rest) else a :: dedupAdjacent (b :: rest)

/-- The post-pass of `merge_requirements` on `trust_score_required_ge`:
`sort`, `dedup`, keep only the last (largest) element.  An empty list is
left untouched. -/
def collapseToMax (l : List Int) : List Int :=
  if l.isEmpty then l
  else
    match (dedupAdjacent (l.insertionSort (fun a b => a ≤ b))).getLast? with
    | some m => [m]
    | none => []

/-- The post-pass of `merge_requirements` on `trust_score_required_lt`:
`sort`, `dedup`, keep only the first (smallest) element. -/
def collapseToMin (l : List Int) : List Int :=
  if l.isEmpty then l
  else
    match (dedupAdjacent (l.insertionSort (fun a b => a ≤ b))).head? with
    | some m => [m]
    | none => []

/-- Embeds `merge_requirements` from rule_requirements.rs.  The source wraps the
result in `Ok` but has no error path, so the embedding is pure. -/
def merge_requirements (requirements : List SrcRequirement) : MergedRequirements :=
  let out := requirements.foldl mergeStep MergedRequirements.empty
  { out with
      trust_score_required_ge := collapseToMax out.trust_score_required_ge,
      trust_score_required_lt := collapseToMin out.trust_score_required_lt }

/- ===== encoder.rs ===== -/

/-- Embeds `AttrValueType` from encoder.rs. -/
inductive AttrValueType where
  | Single | Multiple | Numeric
deriving DecidableEq

/-- Embeds `AttrIdEntry` from encoder.rs; the `value_to_id` `HashMap` is an
association list. -/
structure AttrIdEntry where
  value_type : AttrValueType
  value_to_id : Option (List (String × Nat))
  numeric_min : Option Int
  numeric_max : Option Int
deriving DecidableEq

/-- Embeds `AttrIdMap` from encoder.rs. -/
structure AttrIdMap where
  entries : List (String × AttrIdEntry)

/-- Embeds `AttrIdMap::value_to_id` from encoder.rs. -/
def AttrIdMap.value_to_id (map : AttrIdMap) (attr_name value : String) :
    Except String Nat :=
  match assocGet map.entries attr_name with
  | none => .error ("Unknown attribute: " ++ attr_name)
  | some entry =>
      match entry.value_to_id with
      | none => .error ("Attribute " ++ attr_name ++ " has no value->id map")
      | some m =>
          match assocGet m value with
          | some id => .ok id
          | none => .error ("Value '" ++ value ++ "' not found in attribute " ++ attr_name)

/-- Embeds `EncodedAttributeValue` from encoder.rs. -/
inductive EncodedAttributeValue where
  | SingleId (id : Nat)
  | MultipleIds (ids : List Nat)
  | Numeric (n : Int)
deriving DecidableEq

/-- The `vec.iter().map(|s| map.value_to_id(..)).collect()` loop of the
`Multiple` arm of `encode_value`. -/
def encodeSetIds (map : AttrIdMap) (attr_name : String) :
    List String → Except String (List Nat)
  | [] => .ok []
  | s :: ss => do
      let id ← map.value_to_id attr_name s
      let rest ← encodeSetIds map attr_name ss
      .ok (id :: rest)

/-- Embeds `encode_value` from encoder.rs. -/
def encode_value (map : AttrIdMap) (attr_name : String) (v : AttributeValue) :
    Except String EncodedAttributeValue :=
  match assocGet map.entries attr_name with
  | none => .error ("Unknown attribute: " ++ attr_name)
  | some entry =>
      match entry.value_type, v with
      | .Single, .String s => do
          let id ← map.value_to_id attr_name s
          .ok (.SingleId id)
      | .Numeric, .Number n =>
          match entry.numeric_min, entry.numeric_max with
          | some mn, some mx =>
              if n < mn ∨ n > mx then
                .error ("Numeric value " ++ toString n ++ " out of range [" ++
                  toString mn ++ ", " ++ toString mx ++ "]")
              else .ok (.Numeric n)
          | some mn, none =>
              if n < mn then
                .error ("Numeric value " ++ toString n ++ " is below minimum " ++ toString mn)
              else .ok (.Numeric n)
          | none, some mx =>
              if n > mx then
                .error ("Numeric value " ++ toString n ++ " above maximu " ++ toString mx)
              else .ok (.Numeric n)
          | none, none => .ok (.Numeric n)
      | .Multiple, .Set vec => do
          let ids ← encodeSetIds map attr_name vec
          .ok (.MultipleIds ids)
      | _, _ => .error ("Type mismatch: attribute " ++ attr_name ++
          " expects a different value shape")

/-- The bit-packing loop of the `Multiple` arm of `encoded_value_to_u32`:
any id `≥ 32` aborts with a range error, otherwise the `1 << id` bits are
OR-ed together. -/
def multipleIdsToBits : Nat → List Nat → Except String Nat
  | bits, [] => .ok bits
  | bits, id :: ids =>
      if id ≥ 32 then
        .error ("Multiple id " ++ toString id ++ " does not fit in 32 bits")
      else multipleIdsToBits (bits ||| (1 <<< id)) ids

/-- Embeds `encoded_value_to_u32` from encoder.rs. -/
def encoded_value_to_u32 (entry : AttrIdEntry) (v : EncodedAttributeValue) :
    Except String Nat :=
  match entry.value_type, v with
  | .Single, .SingleId id => .ok id
  | .Numeric, .Numeric n =>
      if n < 0 ∨ n > 4294967295 then
        .error ("Numeric value " ++ toString n ++ " out of u32 range")
      else .ok n.toNat
  | .Multiple, .MultipleIds ids => multipleIdsToBits 0 ids
  | _, _ => .error "Type mismatch in encoded_value_to_u32"

/-- Embeds `u32_to_bit_string` from encoder.rs: a 32-character '0'/'1' rendering,
most significant bit first. -/
def u32_to_bit_string (b : Nat) : String :=
  ⟨(List.range 32).reverse.map (fun i => if (b >>> i) &&& 1 = 1 then '1' else '0')⟩

/-- The indexed loop of `numeric_to_threshold_bits`. -/
def numericToThresholdGo (value : Int) : Nat → Nat → List Int → Nat
  | bits, _, [] => bits
  | bits, i, t :: ts =>
      numericToThresholdGo value
        (if i < 32 ∧ value ≤ t then bits ||| (1 <<< i) else bits) (i + 1) ts

/-- Embeds `numeric_to_threshold_bits` from encoder.rs. -/
def numeric_to_threshold_bits (value : Int) (thresholds : List Int) : Nat :=
  numericToThresholdGo value 0 0 thresholds

/-- The indexed loop of `requirement_ge_to_threshold_bits`. -/
def requirementGeGo (threshold : Int) : Nat → Nat → List Int → Nat
  | bits, _, [] => bits
  | bits, i, t :: ts =>
      requirementGeGo threshold
        (if i < 32 ∧ threshold ≤ t then bits ||| (1 <<< i) else bits) (i + 1) ts

/-- Embeds `requirement_ge_to_threshold_bits` from encoder.rs. -/
def requirement_ge_to_threshold_bits (threshold : Int) (thresholds : List Int) : Nat :=
  requirementGeGo threshold 0 0 thresholds

/-- The indexed loop of `requirement_lt_to_threshold_bits`; the `break` after
the first hit is modelled by returning immediately. -/
def requirementLtGo (threshold : Int) : Nat → Nat → List Int → Nat
  | bits, _, [] => bits
  | bits, i, t :: ts =>
      if i < 32 ∧ t = threshold then bits ||| (1 <<< i)
      else requirementLtGo threshold bits (i + 1) ts

/-- Embeds `requirement_lt_to_threshold_bits` from encoder.rs. -/
def requirement_lt_to_threshold_bits (threshold : Int) (thresholds : List Int) : Nat :=
  requirementLtGo threshold 0 0 thresholds

/-- Embeds `KeySemantics` from encoder.rs. -/
structure KeySemantics where
  use_trust_score_threshold : Bool
deriving DecidableEq

/-- The strict (error-propagating) mask loop over an allowed-value list used
by `merged_requirements_to_key_bits` for Role/Dept/Groups. -/
def allowedMaskStrict (map : AttrIdMap) (name : String) :
    List String → Nat → Except String Nat
  | [], mask => .ok mask
  | s :: ss, mask => do
      let id ← map.value_to_id name s
      allowedMaskStrict map name ss (if id < 32 then mask ||| (1 <<< id) else mask)

/-- The lenient (`if let Ok`) mask loop used by
`merged_requirements_to_key_bits_per_attr`: lookup failures are skipped. -/
def allowedMaskLenient (map : AttrIdMap) (name : String) :
    List String → Nat → Nat
  | [], mask => mask
  | s :: ss, mask =>
      match map.value_to_id name s with
      | .ok id => allowedMaskLenient map name ss (if id < 32 then mask ||| (1 <<< id) else mask)
      | .error _ => allowedMaskLenient map name ss mask

/-- The per-name `u` computation of `merged_requirements_to_key_bits`
(strict form), threading the `use_trust_score_threshold` flag. -/
def keyBitsForName (map : AttrIdMap) (merged : MergedRequirements) (flag : Bool) :
    String → Except String (Nat × Bool)
  | "Src.Role" =>
      match merged.role_allowed with
      | [] => .ok (0, flag)
      | [s] => do
          let id ← map.value_to_id "Src.Role" s
          .ok (id, flag)
      | ss => do
          let mask ← allowedMaskStrict map "Src.Role" ss 0
          .ok (mask, flag)
  | "Src.Dept" =>
      match merged.dept_allowed with
      | [] => .ok (0, flag)
      | [s] => do
          let id ← map.value_to_id "Src.Dept" s
          .ok (id, flag)
      | ss => do
          let mask ← allowedMaskStrict map "Src.Dept" ss 0
          .ok (mask, flag)
  | "Src.TrustScore" =>
      if !merged.trust_score_required_ge.isEmpty ∨ !merged.trust_score_required_lt.isEmpty
      then .ok (0, true)
      else .ok (0, flag)
  | "Src.Groups" => do
      let mask ← allowedMaskStrict map "Src.Groups" merged.groups_allowed 0
      .ok (mask, flag)
  | _ => .ok (0, flag)

/-- The `for &name in source_attr_order` loop of
`merged_requirements_to_key_bits`, accumulating the concatenated buffer. -/
def keyBitsLoop (map : AttrIdMap) (merged : MergedRequirements) :
    List String → String → Bool → Except String (String × Bool)
  | [], buf, flag => .ok (buf, flag)
  | name :: rest, buf, flag => do
      let (u, flag') ← keyBitsForName map merged flag name
      keyBitsLoop map merged rest (buf ++ u32_to_bit_string u) flag'

/-- Embeds `merged_requirements_to_key_bits` from encoder.rs (the concatenated
form).  Note the source computes `lt_bits` inside the threshold branch and
then returns only `ge_bits`; the embedding mirrors that. -/
def merged_requirements_to_key_bits (map : AttrIdMap) (merged : MergedRequirements)
    (source_attr_order : List String) (trust_score_thresholds : List Int) :
    Except String (String × KeySemantics) := do
  let (buf, use_trust_score_threshold) ← keyBitsLoop map merged source_attr_order "" false
  let th_bits :=
    if use_trust_score_threshold then
      let ge_bits := merged.trust_score_required_ge.foldl
        (fun acc t => acc ||| requirement_ge_to_threshold_bits t trust_score_thresholds) 0
      let _lt_bits := merged.trust_score_required_lt.foldl
        (fun acc t => acc ||| requirement_lt_to_threshold_bits t trust_score_thresholds) 0
      ge_bits
    else 0
  .ok (buf ++ u32_to_bit_string th_bits, ⟨use_trust_score_threshold⟩)

/-- Models `HashMap::insert`: replaces the value at an existing key,
otherwise appends. -/
def assocInsert {β : Type} (l : List (String × β)) (k : String) (v : β) :
    List (String × β) :=
  if (l.find? (fun p => p.1 == k)).isSome
  then l.map (fun p => if p.1 == k then (k, v) else p)
  else l ++ [(k, v)]

/-- The per-name `u` computation of `merged_requirements_to_key_bits_per_attr`:
identical to the strict form except that multi-value masks skip failed
lookups (`if let Ok`). -/
def keyBitsForNameLenient (map : AttrIdMap) (merged : MergedRequirements)
    (flag : Bool) : String → Except String (Nat × Bool)
  | "Src.Role" =>
      match merged.role_allowed with
      | [] => .ok (0, flag)
      | [s] => do
          let id ← map.value_to_id "Src.Role" s
          .ok (id, flag)
      | ss => .ok (allowedMaskLenient map "Src.Role" ss 0, flag)
  | "Src.Dept" =>
      match merged.dept_allowed with
      | [] => .ok (0, flag)
      | [s] => do
          let id ← map.value_to_id "Src.Dept" s
          .ok (id, flag)
      | ss => .ok (allowedMaskLenient map "Src.Dept" ss 0, flag)
  | "Src.TrustScore" =>
      if !merged.trust_score_required_ge.isEmpty ∨ !merged.trust_score_required_lt.isEmpty
      then .ok (0, true)
      else .ok (0, flag)
  | "Src.Groups" =>
      .ok (allowedMaskLenient map "Src.Groups" merged.groups_allowed 0, flag)
  | _ => .ok (0, flag)

/-- The `for &name in source_attr_order` loop of
`merged_requirements_to_key_bits_per_attr`, filling the name-to-bit-string
map. -/
def perAttrLoop (map : AttrIdMap) (merged : MergedRequirements) :
    List String → List (String × String) → Bool →
    Except String (List (String × String) × Bool)
  | [], out, flag => .ok (out, flag)
  | name :: rest, out, flag => do
      let (u, flag') ← keyBitsForNameLenient map merged flag name
      perAttrLoop map merged rest (assocInsert out name (u32_to_bit_string u)) flag'

/-- Embeds `merged_requirements_to_key_bits_per_attr` from encoder.rs: here the
`lt` ladder bits ARE OR-ed into `ge_bits` before the extra
`"Src.TrustScore.Threshold"` entry is inserted. -/
def merged_requirements_to_key_bits_per_attr (map : AttrIdMap)
    (merged : MergedRequirements) (source_attr_order : List String)
    (trust_score_thresholds : List Int) :
    Except String (List (String × String) × KeySemantics) := do
  let (out, use_trust_score_threshold) ← perAttrLoop map merged source_attr_order [] false
  if use_trust_score_threshold then
    let ge1 := merged.trust_score_required_ge.foldl
      (fun acc t => acc ||| requirement_ge_to_threshold_bits t trust_score_thresholds) 0
    let ge_bits := merged.trust_score_required_lt.foldl
      (fun acc t => acc ||| requirement_lt_to_threshold_bits t trust_score_thresholds) ge1
    .ok (assocInsert out "Src.TrustScore.Threshold" (u32_to_bit_string ge_bits),
      ⟨use_trust_score_threshold⟩)
  else .ok (out, ⟨use_trust_score_threshold⟩)

/- ===== classifier.rs: entry points ===== -/

/-- Embeds `list_applicable_rules_per_dest_entity` from classifier.rs. -/
def list_applicable_rules_per_dest_entity (policies : List Policy)
    (dest_entities : List DestinationEntity) : List (String × List String) :=
  dest_entities.map (fun dest =>
    (dest.ip,
     (policies.map (fun policy =>
        policy.rules.filterMap (fun rule =>
          if is_rule_applicable_for_dest_entity rule dest then some rule.id
          else none))).flatten))

/-- The inner rule loop of `build_dest_requirement_bits`: inapplicable rules
are skipped, applicable rules contribute their collected requirements. -/
def collectApplicableReqs (dest : DestinationEntity) :
    List Rule → Except String (List SrcRequirement)
  | [] => .ok []
  | rule :: rest =>
      if !is_rule_applicable_for_dest_entity rule dest then
        collectApplicableReqs dest rest
      else do
        let reqs ← collect_src_requirements dest rule.condition
        let more ← collectApplicableReqs dest rest
        .ok (reqs ++ more)

/-- The policy loop of `build_dest_requirement_bits`. -/
def collectAllReqs (dest : DestinationEntity) :
    List Policy → Except String (List SrcRequirement)
  | [] => .ok []
  | p :: ps => do
      let r ← collectApplicableReqs dest p.rules
      let rest ← collectAllReqs dest ps
      .ok (r ++ rest)

/-- The destination loop of `build_dest_requirement_bits`. -/
def buildDestLoop (policies : List Policy) (attr_id_map : AttrIdMap)
    (source_attr_order : List String) (trust_score_thresholds : List Int) :
    List DestinationEntity →
    Except String (List (String × List (String × String) × KeySemantics))
  | [] => .ok []
  | dest :: rest => do
      let all_reqs ← collectAllReqs dest policies
      let merged := merge_requirements all_reqs
      let (key_bits, semantics) ← merged_requirements_to_key_bits_per_attr
        attr_id_map merged source_attr_order trust_score_thresholds
      let more ← buildDestLoop policies attr_id_map source_attr_order
        trust_score_thresholds rest
      .ok ((dest.ip, key_bits, semantics) :: more)

/-- Embeds `build_dest_requirement_bits` from classifier.rs. -/
def build_dest_requirement_bits (policies : List Policy)
    (dest_entities : List DestinationEntity) (attr_id_map : AttrIdMap)
    (source_attr_order : List String) (trust_score_thresholds : List Int) :
    Except String (List (String × List (String × String) × KeySemantics)) :=
  buildDestLoop policies attr_id_map source_attr_order trust_score_thresholds
    dest_entities

/- ===== C1 ===== -/

/-- The condition of the C1 failing input: an `Or` mixing a source-only
branch with a destination branch. -/
def c1Cond : Condition :=
  .Or [.Eq (.AttributeRef "Src.Role") (.LiteralString "a"),
       .Eq (.AttributeRef "Dst.Type") (.LiteralString "x")]

/-- Destination for the C1 failing input: its `Dst.Type` is `"y"`, so the
destination branch of the `Or` is false. -/
def c1Dest : DestinationEntity := ⟨"10.0.0.1", [(.Type, .String "y")], none⟩

/-- Source witnessing that the C1 condition is satisfiable: `Src.Role = "a"`
satisfies the first branch of the `Or`. -/
def c1Source : SourceEntity := ⟨"10.0.0.2", [(.Role, .String "a")], none⟩

/-- C1: the claim that `is_rule_applicable_for_dest_entity` never excludes a
rule some concrete source could match FAILS on the code.  For the mixed `Or`
condition `Or[Eq(Src.Role,"a"), Eq(Dst.Type,"x")]` and a destination with
`Dst.Type = "y"`, full evaluation with a source whose `Src.Role = "a"`
returns `Ok(true)`, yet the condition references a Dst attribute and
`evaluate_dest_only` returns `Ok(false)` (the `Or` loop only consults
Dst-referencing branches and ends with `Ok(!has_dst)`), so the applicability
check rejects the rule. -/
theorem c1_dest_only_filter_unsound :
    Condition.evaluate c1Source c1Dest [] c1Cond = .ok true ∧
    c1Cond.references_dst = true ∧
    Condition.evaluate_dest_only c1Dest c1Cond = .ok false ∧
    is_rule_applicable_for_dest_entity ⟨"r1", "", .Allow, c1Cond⟩ c1Dest = false := by
  refine ⟨?_, ?_, ?_, ?_⟩ <;> decide

/- ===== C9 ===== -/

/-- The two threshold-ladder loops are the same computation. -/
theorem numericGo_eq_requirementGeGo (x : Int) :
    ∀ (ts : List Int) (bits i : Nat),
      numericToThresholdGo x bits i ts = requirementGeGo x bits i ts := by
  intro ts
  induction ts with
  | nil => intro bits i; rfl
  | cons t ts ih =>
      intro bits i
      simp only [numericToThresholdGo, requirementGeGo]
      exact ih _ _

/-- C9: `numeric_to_threshold_bits` and `requirement_ge_to_threshold_bits`
are extensionally equal — for every value and every threshold list both set
bit i exactly when `i < 32` and the value is at most `thresholds[i]`. -/
theorem c9_numeric_bits_eq_ge_bits :
    ∀ (x : Int) (ts : List Int),
      numeric_to_threshold_bits x ts = requirement_ge_to_threshold_bits x ts := by
  intro x ts
  unfold numeric_to_threshold_bits requirement_ge_to_threshold_bits
  exact numericGo_eq_requirementGeGo x ts 0 0

/- ===== C6 ===== -/

/-- If no scanned threshold equals the bound, the `lt` loop returns its
accumulator unchanged. -/
theorem requirementLtGo_no_match (t : Int) :
    ∀ (ts : List Int) (bits i : Nat), (∀ x ∈ ts, x ≠ t) →
      requirementLtGo t bits i ts = bits := by
  intro ts
  induction ts with
  | nil => intro bits i _; rfl
  | cons x xs ih =>
      intro bits i h
      have hx : x ≠ t := h x (by simp)
      simp only [requirementLtGo]
      rw [if_neg (fun hc => hx hc.2)]
      exact ih bits (i + 1) (fun y hy => h y (by simp [hy]))

/-- The `lt` loop either leaves its accumulator unchanged or ORs in a single
bit at a position at least its starting index and below 32. -/
theorem requirementLtGo_shape (t : Int) :
    ∀ (ts : List Int) (bits i : Nat),
      requirementLtGo t bits i ts = bits ∨
      ∃ k, i ≤ k ∧ k < 32 ∧ requirementLtGo t bits i ts = bits ||| (1 <<< k) := by
  intro ts
  induction ts with
  | nil => intro bits i; left; rfl
  | cons x xs ih =>
      intro bits i
      simp only [requirementLtGo]
      by_cases hc : i < 32 ∧ x = t
      · right
        exact ⟨i, le_refl i, hc.1, by rw [if_pos hc]⟩
      · rw [if_neg hc]
        rcases ih bits (i + 1) with h | ⟨k, hk1, hk2, hk3⟩
        · left; exact h
        · right; exact ⟨k, by omega, hk2, hk3⟩

/-- If position `i` holds the first entry equal to the bound and lies below
32 (offset included), the `lt` loop ORs in exactly bit `i0 + i`. -/
theorem requirementLtGo_first (t : Int) :
    ∀ (ts : List Int) (bits i0 i : Nat) (h : i < ts.length),
      i0 + i < 32 → ts.get ⟨i, h⟩ = t →
      (∀ j (hj : j < ts.length), j < i → ts.get ⟨j, hj⟩ ≠ t) →
      requirementLtGo t bits i0 ts = bits ||| (1 <<< (i0 + i)) := by
  intro ts
  induction ts with
  | nil => intro bits i0 i h; simp at h
  | cons x xs ih =>
      intro bits i0 i h hlt hget hfirst
      cases i with
      | zero =>
          have hx : x = t := hget
          simp only [requirementLtGo]
          rw [if_pos ⟨by omega, hx⟩, Nat.add_zero]
      | succ i' =>
          have hx : x ≠ t := hfirst 0 (by simp) (by omega)
          simp only [requirementLtGo]
          rw [if_neg (fun hc => hx hc.2)]
          have htail := ih bits (i0 + 1) i' (by simpa using h) (by omega) hget
            (fun j hj hji => hfirst (j + 1) (by simpa using hj) (by omega))
          rw [htail]
          congr 2
          omega

/-- C6: `requirement_lt_to_threshold_bits` sets at most one bit — the bit of
the first index `i < 32` where `thresholds[i]` equals the bound exactly —
and returns 0 when no entry equals the bound; the `ge` variant instead sets
every compatible bit (concrete exhibit on thresholds `[5, 7, 9]`). -/
theorem c6_lt_threshold_bits_first_exact_match :
    (∀ (t : Int) (ts : List Int),
      (requirement_lt_to_threshold_bits t ts = 0 ∨
        ∃ i, i < 32 ∧ requirement_lt_to_threshold_bits t ts = 1 <<< i) ∧
      ((∀ x ∈ ts, x ≠ t) → requirement_lt_to_threshold_bits t ts = 0) ∧
      (∀ i (h : i < ts.length), i < 32 → ts.get ⟨i, h⟩ = t →
        (∀ j (hj : j < ts.length), j < i → ts.get ⟨j, hj⟩ ≠ t) →
        requirement_lt_to_threshold_bits t ts = 1 <<< i)) ∧
    requirement_lt_to_threshold_bits 5 [5, 7, 9] = 1 ∧
    requirement_ge_to_threshold_bits 5 [5, 7, 9] = 7 := by
  refine ⟨fun t ts => ⟨?_, ?_, ?_⟩, by decide, by decide⟩
  · rcases requirementLtGo_shape t ts 0 0 with h | ⟨k, _, hk2, hk3⟩
    · left; exact h
    · right
      refine ⟨k, hk2, ?_⟩
      unfold requirement_lt_to_threshold_bits
      rw [hk3, Nat.zero_or]
  · intro h
    exact requirementLtGo_no_match t ts 0 0 h
  · intro i h h32 hget hfirst
    unfold requirement_lt_to_threshold_bits
    rw [requirementLtGo_first t ts 0 0 i h (by omega) hget hfirst, Nat.zero_or]
    congr 1
    omega

/-- C6 witness: on thresholds `[40, 50, 60]` the bound 50 matches only index
1, so exactly bit 1 is set, and a bound matching no entry yields 0. -/
theorem c6_witness :
    requirement_lt_to_threshold_bits 50 [40, 50, 60] = 1 <<< 1 ∧
    requirement_lt_to_threshold_bits 55 [40, 50, 60] = 0 := by
  constructor
  · exact (c6_lt_threshold_bits_first_exact_match.1 50 [40, 50, 60]).2.2 1 (by decide)
      (by decide) (by decide) (fun j hj hji => by
        cases j with
        | zero => show (40 : Int) ≠ 50; decide
        | succ j => omega)
  · exact (c6_lt_threshold_bits_first_exact_match.1 55 [40, 50, 60]).2.1
      (by decide)

/- ===== C7 ===== -/

/-- The bit-packing loop errors as soon as some id is at least 32. -/
theorem multipleIdsToBits_error :
    ∀ (ids : List Nat) (bits : Nat), (∃ id ∈ ids, 32 ≤ id) →
      ∃ e, multipleIdsToBits bits ids = .error e := by
  intro ids
  induction ids with
  | nil => intro bits h; simp at h
  | cons id ids ih =>
      intro bits h
      simp only [multipleIdsToBits]
      by_cases hid : 32 ≤ id
      · rw [if_pos hid]
        exact ⟨_, rfl⟩
      · rw [if_neg hid]
        rcases h with ⟨j, hj, hj32⟩
        rcases List.mem_cons.mp hj with rfl | hjtail
        · omega
        · exact ih _ ⟨j, hjtail, hj32⟩

/-- With every id below 32 the bit-packing loop succeeds and returns the OR
of the `1 << id` bits. -/
theorem multipleIdsToBits_ok :
    ∀ (ids : List Nat) (bits : Nat), (∀ id ∈ ids, id < 32) →
      multipleIdsToBits bits ids =
        .ok (ids.foldl (fun b id => b ||| (1 <<< id)) bits) := by
  intro ids
  induction ids with
  | nil => intro bits _; rfl
  | cons id ids ih =>
      intro bits h
      have hid : id < 32 := h id (by simp)
      simp only [multipleIdsToBits, List.foldl]
      rw [if_neg (by omega)]
      exact ih _ (fun j hj => h j (by simp [hj]))

/-- C7: for a `Multiple`-typed schema entry, `encoded_value_to_u32` returns a
range error whenever some id is ≥ 32 (never a truncated mask), and the OR of
`1 << id` over the ids whenever all ids are < 32. -/
theorem c7_multiple_ids_range_checked :
    ∀ (entry : AttrIdEntry) (ids : List Nat), entry.value_type = .Multiple →
      ((∃ id ∈ ids, 32 ≤ id) →
        ∃ e, encoded_value_to_u32 entry (.MultipleIds ids) = .error e) ∧
      ((∀ id ∈ ids, id < 32) →
        encoded_value_to_u32 entry (.MultipleIds ids) =
          .ok (ids.foldl (fun b id => b ||| (1 <<< id)) 0)) := by
  intro entry ids hmult
  obtain ⟨vt, vmap, mn, mx⟩ := entry
  cases hmult
  constructor
  · intro h
    simpa only [encoded_value_to_u32] using multipleIdsToBits_error ids 0 h
  · intro h
    simpa only [encoded_value_to_u32] using multipleIdsToBits_ok ids 0 h

/-- C7 witness: id 32 in a set triggers the range error; ids 1 and 3 pack to
the mask 10. -/
theorem c7_witness :
    (∃ e, encoded_value_to_u32 ⟨.Multiple, none, none, none⟩
      (.MultipleIds [1, 32]) = .error e) ∧
    encoded_value_to_u32 ⟨.Multiple, none, none, none⟩ (.MultipleIds [1, 3])
      = .ok 10 := by
  constructor
  · exact (c7_multiple_ids_range_checked ⟨.Multiple, none, none, none⟩ [1, 32]
      rfl).1 ⟨32, by decide, by decide⟩
  · exact ((c7_multiple_ids_range_checked ⟨.Multiple, none, none, none⟩ [1, 3]
      rfl).2 (by decide)).trans (by decide)

/- ===== C2 ===== -/

/-- C2 failing input: merged requirements whose only trust-score constraint
is the upper bound `lt = [50]`. -/
def c2Merged : MergedRequirements := ⟨[], [], [], [50], []⟩

/-- C2: the claim that the concatenated `merged_requirements_to_key_bits`
appends a final slot holding the OR of the `ge`-ladder and `lt`-ladder bits
FAILS on the code.  With `required_ge = []`, `required_lt = [50]`, thresholds
`[50]`: the flag is set, but the appended slot renders 0 — the source
computes `lt_bits` and then returns only `ge_bits` — while the OR of the two
ladder folds is 1. -/
theorem c2_concatenated_key_drops_lt_bits :
    merged_requirements_to_key_bits ⟨[]⟩ c2Merged ["Src.TrustScore"] [50]
      = .ok (u32_to_bit_string 0 ++ u32_to_bit_string 0, ⟨true⟩) ∧
    (c2Merged.trust_score_required_ge.foldl
        (fun acc t => acc ||| requirement_ge_to_threshold_bits t [50]) 0) |||
      (c2Merged.trust_score_required_lt.foldl
        (fun acc t => acc ||| requirement_lt_to_threshold_bits t [50]) 0) = 1 ∧
    u32_to_bit_string 0 ≠ u32_to_bit_string 1 := by
  refine ⟨by decide, by decide, by decide⟩

/- ===== C4 ===== -/

/-- C4 schema: `Src.Role` single-valued with `student -> 0`, `faculty -> 1`. -/
def c4Map : AttrIdMap :=
  ⟨[("Src.Role", ⟨.Single, some [("student", 0), ("faculty", 1)], none, none⟩)]⟩

/-- C4 policy: a single rule `EQ(Src.Role, "faculty")`. -/
def c4Policy : Policy :=
  ⟨"CampusPolicy", "", .Deny,
   [⟨"r1", "", .Allow, .Eq (.AttributeRef "Src.Role") (.LiteralString "faculty")⟩]⟩

/-- C4 destination (no attributes; the rule references no Dst attribute, so
it is applicable). -/
def c4Dest : DestinationEntity := ⟨"10.0.0.5", [], none⟩

/-- C4 counterexample: on the claim's own schema and policy,
`build_dest_requirement_bits` produces a `"Src.Role"` bit-string equal to
`u32_to_bit_string 1` (the raw id of `"faculty"`), which differs from the
claimed `u32_to_bit_string (1 <<< 1)`: a single allowed value is encoded as
the id itself, not as a shifted mask. -/
theorem c4_counterexample_raw_id_not_mask :
    build_dest_requirement_bits [c4Policy] [c4Dest] c4Map ["Src.Role"] []
      = .ok [("10.0.0.5", [("Src.Role", u32_to_bit_string 1)], ⟨false⟩)] ∧
    u32_to_bit_string 1 ≠ u32_to_bit_string (1 <<< 1) := by
  refine ⟨by decide, by decide⟩

/-- C4 amended: with `Src.Role` single-valued `{0: student, 1: faculty}` and
the only applicable rule `EQ(Src.Role, "faculty")`, the destination's
`"Src.Role"` entry equals `u32_to_bit_string 1` — the raw id of `"faculty"`,
because exactly one allowed value is encoded as the id itself. -/
theorem c4_single_allowed_value_encodes_raw_id :
    (build_dest_requirement_bits [c4Policy] [c4Dest] c4Map ["Src.Role"] []).map
      (fun res => res.map (fun x => (x.1, assocGet x.2.1 "Src.Role")))
      = .ok [("10.0.0.5", some (u32_to_bit_string 1))] := by
  decide

/- ===== C10 counterexample ===== -/

/-- C10 failing input: a comparison of two literals of different shapes; it
references no Dst attribute but still makes `evaluate_dest_only` error. -/
def c10Cond : Condition := .Gte (.LiteralString "a") (.LiteralNumber 1)

/-- Rule carrying the C10 failing condition. -/
def c10Rule : Rule := ⟨"r10", "", .Allow, c10Cond⟩

/-- Destination for the C10 counterexample (its attributes are irrelevant). -/
def c10Dest : DestinationEntity := ⟨"9.9.9.9", [], none⟩

/-- Policy holding only the C10 rule. -/
def c10Policy : Policy := ⟨"p10", "", .Deny, [c10Rule]⟩

/-- C10 counterexample: `evaluate_dest_only` returns an error for this
rule's condition, yet `is_rule_applicable_for_dest_entity` returns true
(the condition references no Dst attribute, so the check short-circuits
before calling `evaluate_dest_only`) and the rule is listed, not omitted,
by `list_applicable_rules_per_dest_entity`. -/
theorem c10_counterexample_error_rule_still_listed :
    Condition.evaluate_dest_only c10Dest c10Cond
      = .error "Comparison requires numbers" ∧
    is_rule_applicable_for_dest_entity c10Rule c10Dest = true ∧
    list_applicable_rules_per_dest_entity [c10Policy] [c10Dest]
      = [("9.9.9.9", ["r10"])] := by
  refine ⟨by decide, by decide, by decide⟩

/- ===== C3 ===== -/

/-- A run of rules that all evaluate to `Ok(false)` falls through to the
default effect. -/
theorem evaluatePolicyRules_all_false :
    ∀ (rules : List Rule) (s : SourceEntity) (d : DestinationEntity)
      (e : List (String × AttributeValue)) (deff : Effect),
      (∀ r ∈ rules, r.matches s d e = .ok false) →
      evaluatePolicyRules s d e deff rules = .ok deff := by
  intro rules
  induction rules with
  | nil => intro s d e deff _; rfl
  | cons r rest ih =>
      intro s d e deff h
      have hr : r.matches s d e = .ok false := h r (by simp)
      simp only [evaluatePolicyRules, hr]
      exact ih s d e deff (fun r' hr' => h r' (by simp [hr']))

/-- A prefix of rules that all evaluate to `Ok(false)` is skipped. -/
theorem evaluatePolicyRules_skip_false :
    ∀ (pre rest : List Rule) (s : SourceEntity) (d : DestinationEntity)
      (e : List (String × AttributeValue)) (deff : Effect),
      (∀ r ∈ pre, r.matches s d e = .ok false) →
      evaluatePolicyRules s d e deff (pre ++ rest) =
        evaluatePolicyRules s d e deff rest := by
  intro pre
  induction pre with
  | nil => intro rest s d e deff _; rfl
  | cons r pre ih =>
      intro rest s d e deff h
      have hr : r.matches s d e = .ok false := h r (by simp)
      simp only [List.cons_append, evaluatePolicyRules, hr]
      exact ih rest s d e deff (fun r' hr' => h r' (by simp [hr']))

/-- C3: `evaluate_policy` returns the effect of the first rule in list order
whose condition evaluates to true, the default effect when every rule
evaluates to false, and surfaces an evaluation error hit before any earlier
match as an error (wrapped with the rule id), never as an effect. -/
theorem c3_first_match_or_default_or_error :
    ∀ (policy : Policy) (source : SourceEntity) (destination : DestinationEntity)
      (env : List (String × AttributeValue)),
      ((∀ r ∈ policy.rules, r.matches source destination env = .ok false) →
        evaluate_policy policy source destination env = .ok policy.default_effect) ∧
      (∀ (pre : List Rule) (r : Rule) (post : List Rule),
        policy.rules = pre ++ r :: post →
        (∀ r' ∈ pre, r'.matches source destination env = .ok false) →
        (r.matches source destination env = .ok true →
          evaluate_policy policy source destination env = .ok r.effect) ∧
        (∀ e, r.matches source destination env = .error e →
          evaluate_policy policy source destination env =
            .error ("Error evaluating rule '" ++ r.id ++ "': " ++ e))) := by
  intro policy source destination env
  constructor
  · intro h
    exact evaluatePolicyRules_all_false policy.rules source destination env
      policy.default_effect h
  · intro pre r post hrules hpre
    have hskip : evaluate_policy policy source destination env =
        evaluatePolicyRules source destination env policy.default_effect (r :: post) := by
      unfold evaluate_policy
      rw [hrules]
      exact evaluatePolicyRules_skip_false pre (r :: post) source destination env
        policy.default_effect hpre
    constructor
    · intro htrue
      rw [hskip]
      simp only [evaluatePolicyRules, htrue]
    · intro e herr
      rw [hskip]
      simp only [evaluatePolicyRules, herr]

/-- C3 witness rule whose condition is false (`1 = 2`). -/
def c3RuleFalse : Rule := ⟨"w1", "", .Deny, .Eq (.LiteralNumber 1) (.LiteralNumber 2)⟩

/-- C3 witness rule whose condition is true (`1 = 1`). -/
def c3RuleTrue : Rule := ⟨"w2", "", .Allow, .Eq (.LiteralNumber 1) (.LiteralNumber 1)⟩

/-- C3 witness policy: default Deny, first rule false, second rule true. -/
def c3Policy : Policy := ⟨"wp", "", .Deny, [c3RuleFalse, c3RuleTrue]⟩

/-- C3 witness: the second rule is the first match, so its Allow wins over
the Deny default. -/
theorem c3_witness :
    evaluate_policy c3Policy ⟨"", [], none⟩ ⟨"", [], none⟩ [] = .ok .Allow := by
  exact ((c3_first_match_or_default_or_error c3Policy ⟨"", [], none⟩ ⟨"", [], none⟩ []).2
    [c3RuleFalse] c3RuleTrue [] rfl
    (fun r' hr' => by
      cases List.mem_singleton.mp hr'
      decide)).1 (by decide)

/- ===== C5 ===== -/

/-- The `required_ge` values contributed for `Src.TrustScore` by a
requirement list, in traversal order. -/
def tsContributedGe (reqs : List SrcRequirement) : List Int :=
  (reqs.map (fun r =>
    match r with
    | .Numeric attr ge _ => if attr = "Src.TrustScore" then ge else []
    | _ => [])).flatten

/-- The `required_lt` values contributed for `Src.TrustScore` by a
requirement list, in traversal order. -/
def tsContributedLt (reqs : List SrcRequirement) : List Int :=
  (reqs.map (fun r =>
    match r with
    | .Numeric attr _ lt => if attr = "Src.TrustScore" then lt else []
    | _ => [])).flatten

/-- One merge step appends exactly a requirement's `Src.TrustScore` `ge`
contribution to the `ge` list. -/
theorem mergeStep_ge (out : MergedRequirements) (r : SrcRequirement) :
    (mergeStep out r).trust_score_required_ge =
      out.trust_score_required_ge ++
        (match r with
         | .Numeric attr ge _ => if attr = "Src.TrustScore" then ge else []
         | _ => []) := by
  cases r with
  | Exact attr v => cases v <;> simp only [mergeStep] <;> first | (split_ifs <;> simp) | simp
  | Containment attr s => simp only [mergeStep]; split_ifs <;> simp
  | Numeric attr ge lt => simp only [mergeStep]; split_ifs <;> simp

/-- One merge step appends exactly a requirement's `Src.TrustScore` `lt`
contribution to the `lt` list. -/
theorem mergeStep_lt (out : MergedRequirements) (r : SrcRequirement) :
    (mergeStep out r).trust_score_required_lt =
      out.trust_score_required_lt ++
        (match r with
         | .Numeric attr _ lt => if attr = "Src.TrustScore" then lt else []
         | _ => []) := by
  cases r with
  | Exact attr v => cases v <;> simp only [mergeStep] <;> first | (split_ifs <;> simp) | simp
  | Containment attr s => simp only [mergeStep]; split_ifs <;> simp
  | Numeric attr ge lt => simp only [mergeStep]; split_ifs <;> simp

/-- The merge fold accumulates the contributed `ge` values in order. -/
theorem mergeFold_ge :
    ∀ (reqs : List SrcRequirement) (out : MergedRequirements),
      (reqs.foldl mergeStep out).trust_score_required_ge =
        out.trust_score_required_ge ++ tsContributedGe reqs := by
  intro reqs
  induction reqs with
  | nil => intro out; simp [tsContributedGe]
  | cons r rest ih =>
      intro out
      simp only [List.foldl_cons, tsContributedGe, List.map_cons, List.flatten_cons]
      rw [ih (mergeStep out r), mergeStep_ge]
      simp [tsContributedGe, List.append_assoc]

/-- The merge fold accumulates the contributed `lt` values in order. -/
theorem mergeFold_lt :
    ∀ (reqs : List SrcRequirement) (out : MergedRequirements),
      (reqs.foldl mergeStep out).trust_score_required_lt =
        out.trust_score_required_lt ++ tsContributedLt reqs := by
  intro reqs
  induction reqs with
  | nil => intro out; simp [tsContributedLt]
  | cons r rest ih =>
      intro out
      simp only [List.foldl_cons, tsContributedLt, List.map_cons, List.flatten_cons]
      rw [ih (mergeStep out r), mergeStep_lt]
      simp [tsContributedLt, List.append_assoc]

/-- The value `foldl max` computes bounds every element of the seeded list. -/
theorem foldl_max_le : ∀ (xs : List Int) (x y : Int), y ∈ x :: xs → y ≤ xs.foldl max x := by
  intro xs
  induction xs with
  | nil => intro x y hy; simp at hy; simp [hy]
  | cons a xs ih =>
      intro x y hy
      simp only [List.foldl_cons]
      rcases List.mem_cons.mp hy with rfl | hy'
      · exact le_trans (le_max_left y a) (ih (max y a) _ (by simp))
      · rcases List.mem_cons.mp hy' with rfl | hy''
        · exact le_trans (le_max_right x y) (ih (max x y) _ (by simp))
        · exact ih (max x a) y (by simp [hy''])

/-- The value `foldl max` computes lands in the seeded list. -/
theorem foldl_max_mem : ∀ (xs : List Int) (x : Int), xs.foldl max x ∈ x :: xs := by
  intro xs
  induction xs with
  | nil => intro x; simp
  | cons a xs ih =>
      intro x
      simp only [List.foldl_cons]
      rcases max_choice x a with hm | hm <;> rw [hm] <;>
        [rcases List.mem_cons.mp (ih x) with h | h;
         rcases List.mem_cons.mp (ih a) with h | h] <;> simp [h]

/-- The value `foldl min` computes is below every element of the seeded list. -/
theorem foldl_min_le : ∀ (xs : List Int) (x y : Int), y ∈ x :: xs → xs.foldl min x ≤ y := by
  intro xs
  induction xs with
  | nil => intro x y hy; simp at hy; simp [hy]
  | cons a xs ih =>
      intro x y hy
      simp only [List.foldl_cons]
      rcases List.mem_cons.mp hy with rfl | hy'
      · exact le_trans (ih (min y a) _ (by simp)) (min_le_left y a)
      · rcases List.mem_cons.mp hy' with rfl | hy''
        · exact le_trans (ih (min x y) _ (by simp)) (min_le_right x y)
        · exact ih (min x a) y (by simp [hy''])

/-- The value `foldl min` computes lands in the seeded list. -/
theorem foldl_min_mem : ∀ (xs : List Int) (x : Int), xs.foldl min x ∈ x :: xs := by
  intro xs
  induction xs with
  | nil => intro x; simp
  | cons a xs ih =>
      intro x
      simp only [List.foldl_cons]
      rcases min_choice x a with hm | hm <;> rw [hm] <;>
        [rcases List.mem_cons.mp (ih x) with h | h;
         rcases List.mem_cons.mp (ih a) with h | h] <;> simp [h]

/-- Adjacent dedup of a nonempty list is nonempty. -/
theorem dedupAdjacent_ne_nil : ∀ (a : Int) (l : List Int), dedupAdjacent (a :: l) ≠ [] := by
  intro a l
  induction l generalizing a with
  | nil => simp [dedupAdjacent]
  | cons b r ih =>
      by_cases hab : a = b
      · simpa [dedupAdjacent, hab] using ih b
      · simp [dedupAdjacent, hab]

/-- Adjacent dedup preserves the last element. -/
theorem dedupAdjacent_getLast? : ∀ (l : List Int), (dedupAdjacent l).getLast? = l.getLast? := by
  have h : ∀ (l : List Int) (a : Int), (dedupAdjacent (a :: l)).getLast? = (a :: l).getLast? := by
    intro l
    induction l with
    | nil => intro a; rfl
    | cons b r ih =>
        intro a
        by_cases hab : a = b
        · rw [show dedupAdjacent (a :: b :: r) = dedupAdjacent (b :: r) by
            simp [dedupAdjacent, hab]]
          rw [ih b, List.getLast?_cons_cons]
        · rw [show dedupAdjacent (a :: b :: r) = a :: dedupAdjacent (b :: r) by
            simp [dedupAdjacent, hab]]
          cases hd : dedupAdjacent (b :: r) with
          | nil => exact absurd hd (dedupAdjacent_ne_nil b r)
          | cons c cs =>
              rw [List.getLast?_cons_cons, ← hd, ih b, List.getLast?_cons_cons]
  intro l
  cases l with
  | nil => rfl
  | cons a l => exact h l a

/-- Adjacent dedup preserves the head. -/
theorem dedupAdjacent_head? : ∀ (l : List Int), (dedupAdjacent l).head? = l.head? := by
  have h : ∀ (l : List Int) (a : Int), (dedupAdjacent (a :: l)).head? = (a :: l).head? := by
    intro l
    induction l with
    | nil => intro a; rfl
    | cons b r ih =>
        intro a
        by_cases hab : a = b
        · rw [show dedupAdjacent (a :: b :: r) = dedupAdjacent (b :: r) by
            simp [dedupAdjacent, hab]]
          rw [ih b]
          simp [hab]
        · rw [show dedupAdjacent (a :: b :: r) = a :: dedupAdjacent (b :: r) by
            simp [dedupAdjacent, hab]]
          simp
  intro l
  cases l with
  | nil => rfl
  | cons a l => exact h l a

/-- The last element named by `getLast?` is a member. -/
theorem getLast?_mem_own : ∀ (l : List Int) (m : Int), l.getLast? = some m → m ∈ l := by
  intro l
  induction l with
  | nil => intro m h; exact absurd h (by simp)
  | cons a l ih =>
      intro m h
      cases l with
      | nil =>
          simp only [List.getLast?_singleton, Option.some.injEq] at h
          simp [h]
      | cons b r =>
          rw [List.getLast?_cons_cons] at h
          exact List.mem_cons_of_mem a (ih m h)

/-- In a `≤`-sorted list the last element bounds every member. -/
theorem sorted_getLast?_ge :
    ∀ (l : List Int), l.Sorted (fun a b => a ≤ b) → ∀ m, l.getLast? = some m →
      ∀ y ∈ l, y ≤ m := by
  intro l
  induction l with
  | nil => intro _ m _ y hy; simp at hy
  | cons a l ih =>
      intro hs m hm y hy
      rcases List.sorted_cons.mp hs with ⟨ha, hl⟩
      cases l with
      | nil =>
          simp only [List.getLast?_singleton, Option.some.injEq] at hm
          simp at hy
          omega
      | cons b r =>
          rw [List.getLast?_cons_cons] at hm
          rcases List.mem_cons.mp hy with rfl | hy'
          · exact le_trans (ha m (getLast?_mem_own _ m hm)) (le_refl m)
          · exact ih hl m hm y hy'

/-- In a `≤`-sorted list the head is below every member. -/
theorem sorted_head?_le :
    ∀ (l : List Int), l.Sorted (fun a b => a ≤ b) → ∀ m, l.head? = some m →
      ∀ y ∈ l, m ≤ y := by
  intro l hs m hm y hy
  cases l with
  | nil => simp at hy
  | cons a l =>
      simp only [List.head?_cons, Option.some.injEq] at hm
      rcases List.sorted_cons.mp hs with ⟨ha, _⟩
      rcases List.mem_cons.mp hy with rfl | hy'
      · omega
      · exact hm ▸ ha y hy'

/-- The `sort`-`dedup`-`last` collapse of a nonempty list keeps exactly its
maximum. -/
theorem collapseToMax_cons (x : Int) (xs : List Int) :
    collapseToMax (x :: xs) = [xs.foldl max x] := by
  unfold collapseToMax
  rw [if_neg (by simp)]
  have hperm : List.Perm ((x :: xs).insertionSort (fun a b => a ≤ b)) (x :: xs) :=
    List.perm_insertionSort _ _
  have hsorted : List.Sorted (fun a b => a ≤ b)
      ((x :: xs).insertionSort (fun a b => a ≤ b)) :=
    List.sorted_insertionSort _ _
  rw [dedupAdjacent_getLast?]
  cases hm : ((x :: xs).insertionSort (fun a b => a ≤ b)).getLast? with
  | none =>
      rw [List.getLast?_eq_none_iff] at hm
      have hlen := hperm.length_eq
      rw [hm] at hlen
      simp at hlen
  | some m =>
      have hmem : m ∈ x :: xs := hperm.mem_iff.mp (getLast?_mem_own _ m hm)
      have hub : ∀ y ∈ x :: xs, y ≤ m := fun y hy =>
        sorted_getLast?_ge _ hsorted m hm y (hperm.mem_iff.mpr hy)
      have h1 : xs.foldl max x ≤ m := hub _ (foldl_max_mem xs x)
      have h2 : m ≤ xs.foldl max x := foldl_max_le xs x m hmem
      rw [le_antisymm h2 h1]

/-- The `sort`-`dedup`-`first` collapse of a nonempty list keeps exactly its
minimum. -/
theorem collapseToMin_cons (x : Int) (xs : List Int) :
    collapseToMin (x :: xs) = [xs.foldl min x] := by
  unfold collapseToMin
  rw [if_neg (by simp)]
  have hperm : List.Perm ((x :: xs).insertionSort (fun a b => a ≤ b)) (x :: xs) :=
    List.perm_insertionSort _ _
  have hsorted : List.Sorted (fun a b => a ≤ b)
      ((x :: xs).insertionSort (fun a b => a ≤ b)) :=
    List.sorted_insertionSort _ _
  rw [dedupAdjacent_head?]
  cases hm : ((x :: xs).insertionSort (fun a b => a ≤ b)).head? with
  | none =>
      rw [List.head?_eq_none_iff] at hm
      have hlen := hperm.length_eq
      rw [hm] at hlen
      simp at hlen
  | some m =>
      have hmem : m ∈ x :: xs := hperm.mem_iff.mp (List.mem_of_mem_head? hm)
      have hlb : ∀ y ∈ x :: xs, m ≤ y := fun y hy =>
        sorted_head?_le _ hsorted m hm y (hperm.mem_iff.mpr hy)
      have h1 : m ≤ xs.foldl min x := hlb _ (foldl_min_mem xs x)
      have h2 : xs.foldl min x ≤ m := foldl_min_le xs x m hmem
      rw [le_antisymm h1 h2]

/-- C5: after merging, `trust_score_required_ge` is empty exactly when no
`ge` value was contributed for `Src.TrustScore` and otherwise is the
singleton holding the maximum contributed value; dually,
`trust_score_required_lt` is empty or the singleton holding the minimum
contributed value. -/
theorem c5_merge_collapses_to_extremes :
    ∀ (reqs : List SrcRequirement),
      ((merge_requirements reqs).trust_score_required_ge = [] ↔
        tsContributedGe reqs = []) ∧
      (∀ x xs, tsContributedGe reqs = x :: xs →
        (merge_requirements reqs).trust_score_required_ge = [xs.foldl max x]) ∧
      ((merge_requirements reqs).trust_score_required_lt = [] ↔
        tsContributedLt reqs = []) ∧
      (∀ x xs, tsContributedLt reqs = x :: xs →
        (merge_requirements reqs).trust_score_required_lt = [xs.foldl min x]) := by
  intro reqs
  have hfoldge : (List.foldl mergeStep MergedRequirements.empty reqs).trust_score_required_ge =
      tsContributedGe reqs := by
    simpa [MergedRequirements.empty] using mergeFold_ge reqs MergedRequirements.empty
  have hfoldlt : (List.foldl mergeStep MergedRequirements.empty reqs).trust_score_required_lt =
      tsContributedLt reqs := by
    simpa [MergedRequirements.empty] using mergeFold_lt reqs MergedRequirements.empty
  have hge : (merge_requirements reqs).trust_score_required_ge =
      collapseToMax (tsContributedGe reqs) := by
    show collapseToMax
      (List.foldl mergeStep MergedRequirements.empty reqs).trust_score_required_ge = _
    rw [hfoldge]
  have hlt : (merge_requirements reqs).trust_score_required_lt =
      collapseToMin (tsContributedLt reqs) := by
    show collapseToMin
      (List.foldl mergeStep MergedRequirements.empty reqs).trust_score_required_lt = _
    rw [hfoldlt]
  refine ⟨?_, ?_, ?_, ?_⟩
  · rw [hge]
    cases h : tsContributedGe reqs with
    | nil => simp [collapseToMax]
    | cons x xs => simp [collapseToMax_cons]
  · intro x xs h
    rw [hge, h, collapseToMax_cons]
  · rw [hlt]
    cases h : tsContributedLt reqs with
    | nil => simp [collapseToMin]
    | cons x xs => simp [collapseToMin_cons]
  · intro x xs h
    rw [hlt, h, collapseToMin_cons]

/-- C5 witness: merging `ge` contributions 10, 40, 25 yields `[40]`; merging
`lt` contributions 90, 60 yields `[60]`. -/
theorem c5_witness :
    (merge_requirements
      [.Numeric "Src.TrustScore" [10] [], .Numeric "Src.TrustScore" [40] [],
       .Numeric "Src.TrustScore" [25] []]).trust_score_required_ge = [40] ∧
    (merge_requirements
      [.Numeric "Src.TrustScore" [] [90],
       .Numeric "Src.TrustScore" [] [60]]).trust_score_required_lt = [60] := by
  constructor
  · exact ((c5_merge_collapses_to_extremes
      [.Numeric "Src.TrustScore" [10] [], .Numeric "Src.TrustScore" [40] [],
       .Numeric "Src.TrustScore" [25] []]).2.1 10 [40, 25] (by decide)).trans
      (by norm_num)
  · exact ((c5_merge_collapses_to_extremes
      [.Numeric "Src.TrustScore" [] [90],
       .Numeric "Src.TrustScore" [] [60]]).2.2.2 90 [60] (by decide)).trans
      (by norm_num)

/- ===== C8 ===== -/

/-- Reading a '0'/'1' string back as a base-2 integer, most significant
character first. -/
def parseBin (s : String) : Nat :=
  s.data.foldl (fun acc c => acc * 2 + (if c = '1' then 1 else 0)) 0

/-- Folding the bits of `b` from index `n-1` down to 0 reconstructs
`b mod 2^n` (with the accumulator shifted past them). -/
theorem foldBits_eq_mod (b : Nat) :
    ∀ (n acc : Nat),
      ((List.range n).reverse).foldl
        (fun acc i => acc * 2 + (if (b >>> i) &&& 1 = 1 then 1 else 0)) acc
        = acc * 2 ^ n + b % 2 ^ n := by
  intro n
  induction n with
  | zero => intro acc; simp [Nat.mod_one]
  | succ n ih =>
      intro acc
      rw [List.range_succ, List.reverse_append]
      simp only [List.reverse_cons, List.reverse_nil, List.nil_append,
        List.singleton_append, List.foldl_cons]
      rw [ih]
      have hbit : (if (b >>> n) &&& 1 = 1 then 1 else 0) = b / 2 ^ n % 2 := by
        rw [Nat.and_one_is_mod, Nat.shiftRight_eq_div_pow]
        rcases Nat.mod_two_eq_zero_or_one (b / 2 ^ n) with h | h <;> simp [h]
      rw [hbit, pow_succ, Nat.mod_mul]
      ring

/-- The function `u32_to_bit_string` always renders 32 characters drawn from
'0'/'1', and reading them back as base 2 yields the word modulo `2^32`. -/
theorem u32_to_bit_string_spec (b : Nat) :
    (u32_to_bit_string b).length = 32 ∧
    (∀ c ∈ (u32_to_bit_string b).data, c = '0' ∨ c = '1') ∧
    parseBin (u32_to_bit_string b) = b % 2 ^ 32 := by
  refine ⟨?_, ?_, ?_⟩
  · simp [u32_to_bit_string, String.length]
  · intro c hc
    simp only [u32_to_bit_string, List.mem_map] at hc
    obtain ⟨i, _, hi⟩ := hc
    rcases Decidable.em ((b >>> i) &&& 1 = 1) with h | h
    · right; rw [← hi, if_pos h]
    · left; rw [← hi, if_neg h]
  · unfold parseBin u32_to_bit_string
    rw [List.foldl_map]
    have hext : ∀ (l : List Nat) (acc : Nat),
        l.foldl (fun acc i =>
          acc * 2 + (if (if (b >>> i) &&& 1 = 1 then '1' else '0') = '1' then 1 else 0)) acc
          = l.foldl (fun acc i =>
            acc * 2 + (if (b >>> i) &&& 1 = 1 then 1 else 0)) acc := by
      intro l
      induction l with
      | nil => intro acc; rfl
      | cons i l ih =>
          intro acc
          simp only [List.foldl_cons]
          rw [show (if (if (b >>> i) &&& 1 = 1 then '1' else '0') = '1' then 1 else 0)
              = (if (b >>> i) &&& 1 = 1 then 1 else 0) by
            rcases Decidable.em ((b >>> i) &&& 1 = 1) with h | h <;> simp [h]]
          exact ih _
    rw [hext, foldBits_eq_mod b 32 0]
    simp

/-- Once the accumulator is inside `2^32`, the bit-packing loop keeps its
successful results inside `2^32`. -/
theorem multipleIdsToBits_lt :
    ∀ (ids : List Nat) (bits u : Nat), bits < 2 ^ 32 →
      multipleIdsToBits bits ids = .ok u → u < 2 ^ 32 := by
  intro ids
  induction ids with
  | nil =>
      intro bits u hb h
      simp only [multipleIdsToBits, Except.ok.injEq] at h
      omega
  | cons id ids ih =>
      intro bits u hb h
      simp only [multipleIdsToBits] at h
      by_cases hid : 32 ≤ id
      · rw [if_pos hid] at h; exact absurd h (by simp)
      · rw [if_neg hid] at h
        refine ih _ u ?_ h
        refine Nat.or_lt_two_pow hb ?_
        rw [Nat.shiftLeft_eq, one_mul]
        exact Nat.pow_lt_pow_right (by norm_num) (by omega)

/-- A successful association lookup returns the payload of some member. -/
theorem assocGet_mem {β : Type} (l : List (String × β)) (k : String) (v : β) :
    assocGet l k = some v → ∃ p ∈ l, p.2 = v := by
  unfold assocGet
  cases h : l.find? (fun p => p.1 == k) with
  | none => intro hv; simp at hv
  | some p =>
      intro hv
      exact ⟨p, List.mem_of_find?_eq_some h, Option.some.inj hv⟩

/-- The `u32` typing invariant the Rust schema enjoys by construction: every
id in every value table fits in 32 bits. -/
def AttrIdMap.wellFormedIds (map : AttrIdMap) : Prop :=
  ∀ p ∈ map.entries, ∀ q ∈ p.2.value_to_id.getD [], q.2 < 2 ^ 32

/-- In a well-formed schema, every id returned by `value_to_id` fits in 32
bits. -/
theorem value_to_id_lt (map : AttrIdMap) (attr value : String) (id : Nat) :
    map.wellFormedIds → map.value_to_id attr value = .ok id → id < 2 ^ 32 := by
  intro hwf h
  unfold AttrIdMap.value_to_id at h
  cases hentry : assocGet map.entries attr with
  | none => rw [hentry] at h; exact Except.noConfusion h
  | some entry =>
      rw [hentry] at h
      replace h : (match entry.value_to_id with
          | none => Except.error ("Attribute " ++ attr ++ " has no value->id map")
          | some m =>
            match assocGet m value with
            | some id => Except.ok id
            | none =>
                Except.error ("Value '" ++ value ++ "' not found in attribute " ++ attr))
          = Except.ok id := h
      cases htab : entry.value_to_id with
      | none => rw [htab] at h; exact Except.noConfusion h
      | some table =>
          rw [htab] at h
          replace h : (match assocGet table value with
              | some id => Except.ok id
              | none =>
                  Except.error ("Value '" ++ value ++ "' not found in attribute " ++ attr))
              = Except.ok id := h
          cases hval : assocGet table value with
          | none => rw [hval] at h; exact Except.noConfusion h
          | some id' =>
              rw [hval] at h
              have hid : id' = id := Except.ok.inj h
              obtain ⟨p, hp, hp2⟩ := assocGet_mem map.entries attr entry hentry
              obtain ⟨q, hq, hq2⟩ := assocGet_mem table value id' hval
              have hlt := hwf p hp q (by rw [hp2, htab]; simpa using hq)
              omega

/-- C8: whenever `encode_value` and `encoded_value_to_u32` both succeed on a
well-formed schema, the rendered bit string has length exactly 32, consists
only of '0'/'1' characters, and parsing it back as base 2 recovers exactly
the produced `u32`. -/
theorem c8_bit_string_roundtrip :
    ∀ (map : AttrIdMap) (attr : String) (v : AttributeValue) (entry : AttrIdEntry)
      (ev : EncodedAttributeValue) (u : Nat),
      map.wellFormedIds →
      assocGet map.entries attr = some entry →
      encode_value map attr v = .ok ev →
      encoded_value_to_u32 entry ev = .ok u →
      (u32_to_bit_string u).length = 32 ∧
      (∀ c ∈ (u32_to_bit_string u).data, c = '0' ∨ c = '1') ∧
      parseBin (u32_to_bit_string u) = u := by
  intro map attr v entry ev u hwf hentry henc hu32
  have hub : u < 2 ^ 32 := by
    obtain ⟨vt, vm, mn, mx⟩ := entry
    cases vt <;> cases ev <;> simp only [encoded_value_to_u32] at hu32 <;>
      first
      | exact Except.noConfusion hu32
      | skip
    · -- Single / SingleId
      rename_i id
      have hidu : id = u := Except.ok.inj hu32
      subst hidu
      unfold encode_value at henc
      rw [hentry] at henc
      cases v with
      | String s =>
          replace henc : (map.value_to_id attr s >>= fun id =>
              Except.ok (EncodedAttributeValue.SingleId id))
              = Except.ok (EncodedAttributeValue.SingleId id) := henc
          cases hvi : map.value_to_id attr s with
          | error e => rw [hvi] at henc; exact Except.noConfusion henc
          | ok id0 =>
              rw [hvi] at henc
              have h1 := Except.ok.inj henc
              have h2 : id0 = id := by injection h1
              rw [← h2]
              exact value_to_id_lt map attr s id0 hwf hvi
      | Number n => exact Except.noConfusion henc
      | Set ss => exact Except.noConfusion henc
      | Boolean bb => exact Except.noConfusion henc
    · -- Multiple / MultipleIds
      exact multipleIdsToBits_lt _ 0 u (by norm_num) hu32
    · -- Numeric / Numeric
      rename_i n
      split at hu32
      · exact Except.noConfusion hu32
      · rename_i hrange
        have := Except.ok.inj hu32
        omega
  have hspec := u32_to_bit_string_spec u
  exact ⟨hspec.1, hspec.2.1, by rw [hspec.2.2, Nat.mod_eq_of_lt hub]⟩

/-- C8 witness schema: `Src.Role` single-valued with ids 0 and 1. -/
def c8Map : AttrIdMap :=
  ⟨[("Src.Role", ⟨.Single, some [("student", 0), ("faculty", 1)], none, none⟩)]⟩

/-- C8 witness: encoding `"faculty"` under `Src.Role` gives the word 1, whose
bit string has length 32, is all '0'/'1', and parses back to 1. -/
theorem c8_witness :
    (u32_to_bit_string 1).length = 32 ∧
    (∀ c ∈ (u32_to_bit_string 1).data, c = '0' ∨ c = '1') ∧
    parseBin (u32_to_bit_string 1) = 1 := by
  exact c8_bit_string_roundtrip c8Map "Src.Role" (.String "faculty")
    ⟨.Single, some [("student", 0), ("faculty", 1)], none, none⟩ (.SingleId 1) 1
    (by unfold AttrIdMap.wellFormedIds; decide) (by decide) (by decide) (by decide)

/- ===== C10 amended ===== -/

/-- An `Except` bind on a success just applies the continuation. -/
theorem except_bind_ok {α β : Type} (a : α) (f : α → Except String β) :
    (Except.ok a : Except String α) >>= f = f a := rfl

/-- The per-attribute key map produced from no requirements at all: every
listed attribute maps to the all-zero bit string. -/
def zeroKeyBits (order : List String) : List (String × String) :=
  order.foldl (fun acc name => assocInsert acc name (u32_to_bit_string 0)) []

/-- With empty merged requirements every attribute slot is 0 and the flag is
left unchanged. -/
theorem keyBitsForNameLenient_empty (map : AttrIdMap) (flag : Bool) (name : String) :
    keyBitsForNameLenient map MergedRequirements.empty flag name = .ok (0, flag) := by
  unfold keyBitsForNameLenient
  split <;> rfl

/-- The per-attribute loop over empty merged requirements writes all-zero
slots and keeps the flag. -/
theorem perAttrLoop_empty (map : AttrIdMap) :
    ∀ (order : List String) (out : List (String × String)) (flag : Bool),
      perAttrLoop map MergedRequirements.empty order out flag =
        .ok (order.foldl (fun acc name =>
          assocInsert acc name (u32_to_bit_string 0)) out, flag) := by
  intro order
  induction order with
  | nil => intro out flag; rfl
  | cons name rest ih =>
      intro out flag
      simp only [perAttrLoop, keyBitsForNameLenient_empty, except_bind_ok,
        List.foldl_cons]
      exact ih _ _

/-- Merging no requirements yields the default (empty) requirements. -/
theorem merge_requirements_nil : merge_requirements [] = MergedRequirements.empty := rfl

/-- Compiling empty merged requirements yields all-zero key bits and an
unset trust-score flag. -/
theorem perAttr_empty_merged (map : AttrIdMap) (order : List String) (ths : List Int) :
    merged_requirements_to_key_bits_per_attr map MergedRequirements.empty order ths
      = .ok (zeroKeyBits order, ⟨false⟩) := by
  unfold merged_requirements_to_key_bits_per_attr
  rw [perAttrLoop_empty]
  rfl

/-- C10 (amended): when a rule's condition does reference a Dst attribute
and `evaluate_dest_only` returns an error, the applicability check returns
false and both classifier entry points silently skip the rule — the list
output omits its id, and `build_dest_requirement_bits` succeeds with
all-zero key bits rather than propagating the error.  (Without the
Dst-reference premise the claim fails: see the counterexample, where an
erroring condition that never mentions Dst is accepted unconditionally.) -/
theorem c10_dest_only_error_skips_rule :
    ∀ (rule : Rule) (dest : DestinationEntity) (e : String),
      rule.condition.references_dst = true →
      rule.condition.evaluate_dest_only dest = .error e →
      is_rule_applicable_for_dest_entity rule dest = false ∧
      (∀ (pname pdesc : String) (deff : Effect),
        list_applicable_rules_per_dest_entity [⟨pname, pdesc, deff, [rule]⟩] [dest]
          = [(dest.ip, [])]) ∧
      (∀ (pname pdesc : String) (deff : Effect) (map : AttrIdMap)
        (order : List String) (ths : List Int),
        build_dest_requirement_bits [⟨pname, pdesc, deff, [rule]⟩] [dest] map order ths
          = .ok [(dest.ip, zeroKeyBits order, ⟨false⟩)]) := by
  intro rule dest e hrefs herr
  have happ : is_rule_applicable_for_dest_entity rule dest = false := by
    unfold is_rule_applicable_for_dest_entity
    rw [hrefs]
    simp [herr]
  refine ⟨happ, ?_, ?_⟩
  · intro pname pdesc deff
    simp [list_applicable_rules_per_dest_entity, happ]
  · intro pname pdesc deff map order ths
    have hreqs : collectAllReqs dest [⟨pname, pdesc, deff, [rule]⟩] = .ok [] := by
      simp [collectAllReqs, collectApplicableReqs, happ, except_bind_ok]
    unfold build_dest_requirement_bits
    simp only [buildDestLoop, hreqs, except_bind_ok, merge_requirements_nil,
      perAttr_empty_merged]

/-- C10 rule for the witness: its condition looks up `Dst.Type` on a
destination that lacks it, so `evaluate_dest_only` errors. -/
def c10wRule : Rule :=
  ⟨"rw10", "", .Allow, .Eq (.AttributeRef "Dst.Type") (.LiteralString "x")⟩

/-- C10 witness destination without any attributes. -/
def c10wDest : DestinationEntity := ⟨"1.2.3.4", [], none⟩

/-- C10 witness: the missing `Dst.Type` attribute makes the dest-only check
error, the rule is dropped, and compilation still succeeds with zero bits. -/
theorem c10_witness :
    is_rule_applicable_for_dest_entity c10wRule c10wDest = false ∧
    list_applicable_rules_per_dest_entity [⟨"p", "", .Deny, [c10wRule]⟩] [c10wDest]
      = [("1.2.3.4", [])] ∧
    build_dest_requirement_bits [⟨"p", "", .Deny, [c10wRule]⟩] [c10wDest] ⟨[]⟩
      ["Src.Role"] [] = .ok [("1.2.3.4", zeroKeyBits ["Src.Role"], ⟨false⟩)] := by
  have h := c10_dest_only_error_skips_rule c10wRule c10wDest
    "Attribute not found: Dst.Type" (by decide) (by decide)
  exact ⟨h.1, h.2.1 "p" "" .Deny, h.2.2 "p" "" .Deny ⟨[]⟩ ["Src.Role"] []⟩
